import Mathlib

/-!
Verification of the departure-board scheduling and refresh controller
(`main.py` of the led-trainboard repository).

The Python source is embedded shallowly: every controller function that the
verified properties mention is translated into a computable Lean definition
operating on explicit state.  MicroPython strings are modelled as `List Char`
(the `.data` of a Lean `String`), machine integers as `Nat`/`Int`, the
fallible parser as `Option`, and the external collaborators (wall clock,
tick counter, display text measurement, disk, network) as explicit
parameters.
-/

namespace TrainBoard

/-! ## String primitives (models of MicroPython `str` operations)

`str.strip()` removes leading and trailing whitespace; `str.isdigit()` on the
single ASCII characters fed to it by the parser agrees with `Char.isDigit`;
`int(s)` accepts an optionally signed run of decimal digits surrounded by
optional whitespace and raises `ValueError` otherwise (modelled as `none`).
-/

/-- Characters treated as whitespace by `str.strip()` (ASCII range). -/
def pyIsSpace (c : Char) : Bool :=
  c == ' ' || c == '\t' || c == '\n' || c == '\r' || c == '\x0b' || c == '\x0c'

/-- Remove trailing whitespace. -/
def dropTrailingSpaces (cs : List Char) : List Char :=
  (cs.reverse.dropWhile pyIsSpace).reverse

/-- Model of Python `str.strip()`: remove leading and trailing whitespace. -/
def pyStrip (cs : List Char) : List Char :=
  dropTrailingSpaces (cs.dropWhile pyIsSpace)

/-- Numeric value of a run of decimal digit characters (most significant first). -/
def decDigitsVal (cs : List Char) : Nat :=
  cs.foldl (fun n c => n * 10 + (c.toNat - '0'.toNat)) 0

/-- Unsigned decimal parse: all characters must be ASCII digits and at least one
must be present, as in MicroPython `int()` after sign removal. -/
def decNat? (cs : List Char) : Option Nat :=
  if cs.isEmpty then none
  else if cs.all Char.isDigit then some (decDigitsVal cs)
  else none

/-- Model of MicroPython `int(s)` on a string: strip whitespace, allow one
optional leading sign, then require a nonempty run of decimal digits.
A failed parse (Python `ValueError`) is `none`. -/
def pyInt (cs : List Char) : Option Int :=
  match pyStrip cs with
  | '+' :: rest => (decNat? rest).map Int.ofNat
  | '-' :: rest => (decNat? rest).map (fun n => -(n : Int))
  | rest => (decNat? rest).map Int.ofNat

/-! ## Time parser (`parse_sched_to_seconds`, main.py lines 199-221) -/

/-- The minute-digit collection loop of `parse_sched_to_seconds`: walk the text
after the colon, appending digit characters and stopping as soon as two have
been collected. -/
def collect_minute_digits : List Char → List Char → List Char
  | [], digits => digits
  | c :: rest, digits =>
    if c.isDigit then
      let digits' := digits ++ [c]
      if digits'.length == 2 then digits' else collect_minute_digits rest digits'
    else collect_minute_digits rest digits

/-- The predicate with which `text.split(":", 1)` is modelled: characters
before the first colon. -/
def notColon (c : Char) : Bool :=
  c != ':'

/-- The text after the first colon of a character list. -/
def afterFirstColon (cs : List Char) : List Char :=
  (cs.dropWhile notColon).tail

/-- Embedding of `parse_sched_to_seconds` (main.py lines 199-221): strip the
input, require a colon, parse the hour with `int()` (exceptions give `None`),
collect up to two digit characters after the colon as the minute, reject
minutes outside `[0, 59]`, wrap the hour modulo 24. -/
def parse_sched_to_seconds (value : String) : Option Nat :=
  let text := pyStrip value.data
  if text.isEmpty then none
  else if ':' ∈ text then
    let hour_part := text.takeWhile notColon
    let minute_part := afterFirstColon text
    match pyInt hour_part with
    | none => none
    | some hour =>
      let digits := collect_minute_digits minute_part []
      if digits.isEmpty then none
      else
        let minute := decDigitsVal digits
        if 59 < minute then none
        else some ((hour % 24).toNat * 3600 + minute * 60)
  else none

/-- The condition under which claim C3 says the parser returns `None`:
empty input, no colon, no digit characters after the colon, or a minute
(formed from up to the first two digit characters after the colon) outside
`[0, 59]`.  Stated on the raw input, following the claim's words. -/
def claimNoneCond (value : String) : Bool :=
  let cs := value.data
  cs.isEmpty || !(decide (':' ∈ cs)) ||
    (let digits := collect_minute_digits (afterFirstColon cs) []
     digits.isEmpty || decide (59 < decDigitsVal digits))

/-- Specification-side restatement of the parser, written from the claim's
words amended with the one condition the claim omits: the text before the
first colon must itself parse as an integer.  Stated on the raw (unstripped)
input. -/
def parse_sched_spec (value : String) : Option Nat :=
  let cs := value.data
  if cs.isEmpty then none
  else if ':' ∈ cs then
    let digits := collect_minute_digits (afterFirstColon cs) []
    if digits.isEmpty then none
    else
      let minute := decDigitsVal digits
      if 59 < minute then none
      else
        match pyInt (cs.takeWhile notColon) with
        | none => none
        | some hour => some ((hour % 24).toNat * 3600 + minute * 60)
  else none

/-! ## Services and sorting (`service_sort_key`, main.py lines 224-229) -/

/-- One canonical service entry, the tuple `(sched, destination, status,
calling)` produced by `normalise_service`. -/
structure Service where
  sched : String
  destination : String
  status : String
  calling : String
deriving DecidableEq, Repr

/-- The compiled-in `DEFAULT_SERVICE` (main.py lines 56-61). -/
def DEFAULT_SERVICE : Service where
  sched := "12:24"
  destination := "London Euston"
  status := "On time"
  calling := "Watford Junction, Milton Keynes Central, Rugby, Coventry, Birmingham Int\x27l"

/-- Embedding of `service_sort_key`: parsed schedule seconds with `86400`
substituted when parsing fails, paired with the destination string. -/
def service_sort_key (service : Service) : Nat × String :=
  match parse_sched_to_seconds service.sched with
  | none => (86400, service.destination)
  | some s => (s, service.destination)

/-- Code-point lexicographic string comparison, as Python compares `str`. -/
def pyCharsLe : List Char → List Char → Bool
  | [], _ => true
  | _ :: _, [] => false
  | a :: as, b :: bs =>
    if a.toNat < b.toNat then true
    else if a.toNat == b.toNat then pyCharsLe as bs
    else false

/-- Python `<=` on the `(seconds, destination)` sort keys: lexicographic tuple
comparison with code-point string comparison in the second slot. -/
def keyLe (a b : Nat × String) : Bool :=
  if a.1 < b.1 then true
  else if a.1 == b.1 then pyCharsLe a.2.data b.2.data
  else false

/-- The order realised by `sorted(services, key=service_sort_key)`. -/
def serviceLe (a b : Service) : Prop :=
  keyLe (service_sort_key a) (service_sort_key b) = true

instance : DecidableRel serviceLe := fun a b => by
  unfold serviceLe
  infer_instance

/-- Model of `sorted(services, key=service_sort_key)`.  Python's `sorted` is a
stable sort, and every stable sort for the same total preorder produces the
same list, so the stable `List.insertionSort` is an exact model. -/
def pySorted (services : List Service) : List Service :=
  List.insertionSort serviceLe services

/-! ## Index selection (`find_service_index_for_time`, main.py lines 232-246) -/

/-- The loop condition `lowest_seen is None or sched_secs < lowest_seen` of
`find_service_index_for_time`. -/
def isNewLowest (lowestSeen : Option Nat) (s : Nat) : Bool :=
  match lowestSeen with
  | none => true
  | some lo => decide (s < lo)

/-- The scanning loop of `find_service_index_for_time`: walk the schedule
list, remembering the index of the lowest schedule seen so far, and return the
first index whose schedule is at or after `nowSecs`; if none qualifies return
the remembered fallback index. -/
def findGo (nowSecs : Nat) : List (Option Nat) → Nat → Nat → Option Nat → Nat
  | [], _, fallbackIdx, _ => fallbackIdx
  | schedSecs :: rest, idx, fallbackIdx, lowestSeen =>
    match schedSecs with
    | none => findGo nowSecs rest (idx + 1) fallbackIdx lowestSeen
    | some s =>
      let update := isNewLowest lowestSeen s
      let fallbackIdx' := if update then idx else fallbackIdx
      let lowestSeen' := if update then some s else lowestSeen
      if nowSecs ≤ s then idx else findGo nowSecs rest (idx + 1) fallbackIdx' lowestSeen'

/-- Embedding of `find_service_index_for_time` (main.py lines 232-246),
reading the service and schedule lists as explicit arguments. -/
def find_service_index_for_time (svcs : List Service) (scheds : List (Option Nat))
    (nowSecs : Nat) : Nat :=
  if svcs.isEmpty || scheds.isEmpty then 0
  else findGo nowSecs scheds 0 0 none

/-- Specification-side: the index of the first entry whose parsed schedule is
at or after `nowSecs`, if any (claim C1's words). -/
def firstQualIdx (nowSecs : Nat) : List (Option Nat) → Option Nat
  | [] => none
  | o :: rest =>
    if (match o with | some s => decide (nowSecs ≤ s) | none => false)
    then some 0
    else (firstQualIdx nowSecs rest).map (· + 1)

/-- Specification-side: the index and value of the first occurrence of the
lowest parsed schedule, if any schedule parses (claim C1's words). -/
def firstMinIdx : List (Option Nat) → Option (Nat × Nat)
  | [] => none
  | none :: rest => (firstMinIdx rest).map (fun p => (p.1 + 1, p.2))
  | some s :: rest =>
    match firstMinIdx rest with
    | none => some (0, s)
    | some (i, v) => if v < s then some (i + 1, v) else some (0, s)

/-- Specification-side target index of claim C1: the first index whose parsed
schedule is `>= nowSecs`, falling back to the index with the lowest parsed
schedule, falling back to index 0 when no schedule parses at all. -/
def targetSpec (scheds : List (Option Nat)) (nowSecs : Nat) : Nat :=
  match firstQualIdx nowSecs scheds with
  | some i => i
  | none =>
    match firstMinIdx scheds with
    | some (i, _) => i
    | none => 0

/-! ## Data sources and refresh results -/

/-- Source labels: Python's strings `"local"` and `"remote"`. -/
inductive Source where
  | localSrc
  | remoteSrc
deriving DecidableEq, Repr

/-- The dictionary produced by a fetch attempt (synchronous or asynchronous).
`fetch_services_payload` itself never fills `error`; the async worker does on
an exception. -/
structure FetchResult where
  services : List Service
  source : Option Source
  wifiDrop : Bool
  error : Option String
deriving DecidableEq, Repr

/-- The variables `source_label`, `attempted_remote` and the global
`local_services_cached` that the three loader closures of
`fetch_services_payload` mutate. -/
structure LoaderState where
  sourceLabel : Option Source
  attemptedRemote : Bool
  cache : Option (List Service)
deriving DecidableEq, Repr

/-- Embedding of the closure `load_local_from_cache` (main.py lines 257-262):
Python truthiness makes both a missing cache and an empty cached list fail. -/
def load_local_from_cache (ls : LoaderState) : List Service × LoaderState :=
  match ls.cache with
  | some cached =>
    if cached.isEmpty then ([], ls)
    else (cached, { ls with sourceLabel := some Source.localSrc })
  | none => ([], ls)

/-- Embedding of the closure `load_local_from_disk` (main.py lines 264-272):
`disk` is the result of `load_local_services()` (empty on failure); a
non-empty read refreshes the cache. -/
def load_local_from_disk (disk : List Service) (ls : LoaderState) :
    List Service × LoaderState :=
  if disk.isEmpty then ([], ls)
  else (disk, { ls with sourceLabel := some Source.localSrc, cache := some disk })

/-- Embedding of the closure `load_remote` (main.py lines 274-283): skipped
entirely (no attempt recorded) unless a URL is configured and the connectivity
flag is up; `remote` is the result of `load_remote_services()` (empty on
failure). -/
def load_remote (urlConfigured wifiOk : Bool) (remote : List Service)
    (ls : LoaderState) : List Service × LoaderState :=
  if !urlConfigured || !wifiOk then ([], ls)
  else
    let ls1 := { ls with attemptedRemote := true }
    if remote.isEmpty then ([], ls1)
    else (remote, { ls1 with sourceLabel := some Source.remoteSrc })

/-- A fetch outcome: the returned dictionary plus the final value of the
global `local_services_cached`. -/
structure FetchOutcome where
  result : FetchResult
  cacheAfter : Option (List Service)
deriving DecidableEq, Repr

/-- Embedding of `fetch_services_payload` (main.py lines 249-303).  The
external reads are parameters: `cache` is `local_services_cached` on entry,
`disk` the services a local-disk read would yield, `remote` those a remote
fetch would yield. -/
def fetch_services_payload (preferRemote urlConfigured wifiOk : Bool)
    (cache : Option (List Service)) (disk remote : List Service) : FetchOutcome :=
  let ls0 : LoaderState :=
    { sourceLabel := none, attemptedRemote := false, cache := cache }
  let step :=
    if preferRemote && urlConfigured then
      let (s1, ls1) := load_remote urlConfigured wifiOk remote ls0
      if s1.isEmpty then
        let (s2, ls2) := load_local_from_cache ls1
        if s2.isEmpty then load_local_from_disk disk ls2 else (s2, ls2)
      else (s1, ls1)
    else
      let (s1, ls1) := load_local_from_cache ls0
      if s1.isEmpty then
        let (s2, ls2) := load_local_from_disk disk ls1
        if s2.isEmpty then load_remote urlConfigured wifiOk remote ls2
        else (s2, ls2)
      else (s1, ls1)
  let services := step.1
  let ls := step.2
  let wifiDrop := ls.attemptedRemote && !(ls.sourceLabel == some Source.remoteSrc)
  { result :=
      { services := services, source := ls.sourceLabel, wifiDrop := wifiDrop
        error := none }
    cacheAfter := ls.cache }

/-- Specification-side helper for claim C2: the first non-empty candidate in
preference order, with its label. -/
def firstNonEmpty : List (List Service × Source) → List Service × Option Source
  | [] => ([], none)
  | (l, s) :: rest => if l.isEmpty then firstNonEmpty rest else (l, some s)

/-- Specification-side arbitration of claim C2, written from the claim's
words: consult the sources strictly in preference order, return the first
non-empty result with its label, and report a wifi drop exactly when a remote
attempt was made and the final label is not remote. -/
def fetch_spec (preferRemote urlConfigured wifiOk : Bool)
    (cache : Option (List Service)) (disk remote : List Service) :
    List Service × Option Source × Bool :=
  let cacheList := cache.getD []
  let remoteAvail := if urlConfigured && wifiOk then remote else []
  let picked :=
    if preferRemote && urlConfigured then
      firstNonEmpty [(remoteAvail, Source.remoteSrc), (cacheList, Source.localSrc),
        (disk, Source.localSrc)]
    else
      firstNonEmpty [(cacheList, Source.localSrc), (disk, Source.localSrc),
        (remoteAvail, Source.remoteSrc)]
  let attempted := urlConfigured && wifiOk &&
    (preferRemote || (cacheList.isEmpty && disk.isEmpty))
  (picked.1, picked.2, attempted && !(picked.2 == some Source.remoteSrc))

/-! ## Controller state and its operations -/

/-- The mutable globals of the render loop relevant to the verified claims.
`lastSource = none` models the string `"defaults"`; tick counters are `Int`
milliseconds; `pendingRefreshResult`/`refreshThreadRunning` are the async
mailbox slot and in-flight flag. -/
structure ProgState where
  svcState : Option Service
  svcServices : List Service
  currentServiceIdx : Nat
  tickerText : String
  tickerW : Nat
  tickerPx : Nat
  lastSource : Option Source
  svcScheduleSeconds : List (Option Nat)
  localServicesCached : Option (List Service)
  wifiOk : Bool
  lastRotateMs : Int
  refreshThreadRunning : Bool
  pendingRefreshResult : Option FetchResult
deriving DecidableEq, Repr

/-- Embedding of `strip_calling_prefix` (main.py lines 412-414). -/
def strip_calling_pfx (text : String) : List Char :=
  let value := pyStrip text.data
  if (value.map Char.toUpper).take 11 = "CALLING AT:".data
  then (value.drop 11).dropWhile pyIsSpace
  else value

/-- Embedding of `build_ticker_text` (main.py lines 417-421). -/
def build_ticker_text (raw : String) : String :=
  let base := (strip_calling_pfx raw).map Char.toUpper
  let base' := if base.isEmpty then "NO CALLING POINTS".data else base
  String.mk ("CALLING AT: ".data ++ base' ++ "         ".data)

/-- Embedding of `apply_service` (main.py lines 424-430).  `measure` models
the external `graphics.measure_text`. -/
def apply_service (measure : String → Nat) (service : Service)
    (st : ProgState) : ProgState :=
  let text := build_ticker_text service.calling
  { st with
    svcState := some service
    tickerText := text
    tickerW := max 1 (measure text)
    tickerPx := 0 }

/-- Embedding of `apply_services_payload` (main.py lines 306-329).  `nowTime`
models `get_local_time()` (`none` when the wall clock is unavailable), `nowMs`
models `time.ticks_ms()`.  The unconditional list indexing of the source is
rendered with `getD`; the index is in bounds (claim C7). -/
def apply_services_payload (measure : String → Nat)
    (nowTime : Option (Nat × Nat × Nat)) (nowMs : Int)
    (services : List Service) (sourceLabel : Option Source)
    (st : ProgState) : ProgState :=
  let sorted := pySorted services
  let scheds := sorted.map (fun svc => parse_sched_to_seconds svc.sched)
  let idx := match nowTime with
    | some (hh, mm, ss) =>
      find_service_index_for_time sorted scheds (hh * 3600 + mm * 60 + ss)
    | none => 0
  let st1 := { st with
    svcServices := sorted
    svcScheduleSeconds := scheds
    currentServiceIdx := idx
    lastSource := sourceLabel
    localServicesCached :=
      if sourceLabel = some Source.localSrc then some sorted
      else st.localServicesCached
    lastRotateMs := nowMs }
  apply_service measure (sorted.getD idx DEFAULT_SERVICE) st1

/-- Embedding of `apply_fetched_services` (main.py lines 332-349): a falsy or
empty result only clears the connectivity flag (when `wifi_drop` is set) and
returns `False`; otherwise the payload is applied. -/
def apply_fetched_services (measure : String → Nat)
    (nowTime : Option (Nat × Nat × Nat)) (nowMs : Int)
    (result : Option FetchResult) (st : ProgState) : Bool × ProgState :=
  match result with
  | none => (false, st)
  | some r =>
    let st1 := if r.wifiDrop then { st with wifiOk := false } else st
    if r.services.isEmpty then (false, st1)
    else (true, apply_services_payload measure nowTime nowMs r.services r.source st1)

/-- Embedding of `advance_service` (main.py lines 433-457).  The returned
flag records that `trigger_fetch` was invoked (its dispatch is modelled by
`start_async_refresh`/`apply_fetched_services`). -/
def advance_service (measure : String → Nat) (nowMs : Int)
    (st : ProgState) : ProgState × Bool :=
  if st.svcServices.length ≤ 1 then (st, false)
  else
    let idx := (st.currentServiceIdx + 1) % st.svcServices.length
    let st1 := apply_service measure (st.svcServices.getD idx DEFAULT_SERVICE)
      { st with currentServiceIdx := idx, lastRotateMs := nowMs }
    (st1, true)

/-- Embedding of `auto_advance_if_due` (main.py lines 460-498).  The returned
flag records that `trigger_fetch` was invoked. -/
def auto_advance_if_due (measure : String → Nat) (nowMs : Int)
    (nowTime : Option (Nat × Nat × Nat)) (st : ProgState) : ProgState × Bool :=
  if st.svcServices.isEmpty then (st, false)
  else match nowTime with
  | none => (st, false)
  | some (hh, mm, ss) =>
    let nowSecs := hh * 3600 + mm * 60 + ss
    let idx := if st.svcServices.length ≤ st.currentServiceIdx then 0
      else st.currentServiceIdx
    let currentSched :=
      if !st.svcScheduleSeconds.isEmpty
          && decide (idx < st.svcScheduleSeconds.length)
      then st.svcScheduleSeconds.getD idx none
      else none
    let targetIdx :=
      find_service_index_for_time st.svcServices st.svcScheduleSeconds nowSecs
    let needsChange := match currentSched with
      | none => decide (1 < st.svcServices.length) && !(targetIdx == idx)
      | some s => decide (s < nowSecs) && !(targetIdx == idx)
    if needsChange then
      let st1 := apply_service measure (st.svcServices.getD targetIdx DEFAULT_SERVICE)
        { st with currentServiceIdx := targetIdx, lastRotateMs := nowMs }
      (st1, true)
    else ({ st with currentServiceIdx := idx }, false)

/-- The controller state after startup (main.py lines 708-727): a single
default service, index 0, precomputed schedule, ticker applied. -/
def init_state (measure : String → Nat) : ProgState :=
  apply_service measure DEFAULT_SERVICE
    { svcState := none
      svcServices := [DEFAULT_SERVICE]
      currentServiceIdx := 0
      tickerText := ""
      tickerW := 1
      tickerPx := 0
      lastSource := none
      svcScheduleSeconds := [parse_sched_to_seconds DEFAULT_SERVICE.sched]
      localServicesCached := none
      wifiOk := false
      lastRotateMs := 0
      refreshThreadRunning := false
      pendingRefreshResult := none }

/-! ## Async refresh mailbox -/

/-- Result of a `start_async_refresh` call: the Python return value, the
controller state afterwards, and whether a new worker was spawned. -/
structure StartOutcome where
  returned : Bool
  st : ProgState
  spawned : Bool
deriving DecidableEq, Repr

/-- Embedding of `start_async_refresh` (main.py lines 515-557).
`threadsAvail` models `_thread is not None`; `spawnOk` models
`_thread.start_new_thread` not raising.  On a failed spawn the in-flight flag
is set and immediately reset, leaving the state unchanged. -/
def start_async_refresh (threadsAvail spawnOk : Bool) (st : ProgState) :
    StartOutcome :=
  if !threadsAvail then ⟨false, st, false⟩
  else if st.pendingRefreshResult.isSome then ⟨true, st, false⟩
  else if st.refreshThreadRunning then ⟨true, st, false⟩
  else if spawnOk then ⟨true, { st with refreshThreadRunning := true }, true⟩
  else ⟨false, st, false⟩

/-- Embedding of `poll_async_refresh` (main.py lines 560-580): take and clear
the mailbox slot, then apply the result.  The first component is the result
consumed (for stating single-consumption). -/
def poll_async_refresh (measure : String → Nat)
    (nowTime : Option (Nat × Nat × Nat)) (nowMs : Int)
    (st : ProgState) : Option FetchResult × ProgState :=
  match st.pendingRefreshResult with
  | none => (none, st)
  | some result =>
    let st1 := { st with pendingRefreshResult := none }
    (some result, (apply_fetched_services measure nowTime nowMs (some result) st1).2)

/-- The shared (in-flight flag, mailbox slot) pair as seen between the
worker's shared-state writes. -/
structure MailboxView where
  refreshThreadRunning : Bool
  pendingRefreshResult : Option FetchResult
deriving DecidableEq, Repr

/-- The successive shared states written by the background worker of
`start_async_refresh` once its fetch has produced `result` (main.py lines
542-548): index 0 is the state on entry (flag set by the starter, mailbox
empty); the worker then writes the mailbox under the lock, and only
afterwards clears the in-flight flag. -/
def worker_shared_trace (result : FetchResult) : List MailboxView :=
  [ { refreshThreadRunning := true, pendingRefreshResult := none },
    { refreshThreadRunning := true, pendingRefreshResult := some result },
    { refreshThreadRunning := false, pendingRefreshResult := some result } ]

/-- Two concrete services with known schedules, used to witness the
auto-advance and index claims. -/
def test_two_services : List Service :=
  [⟨"09:00", "A", "s", "c"⟩, ⟨"10:00", "B", "s", "c"⟩]

/-- A controller state holding the two test services with an aligned schedule
index and the first entry current. -/
def test_two_state : ProgState :=
  { init_state (fun _ => 8) with
      svcServices := test_two_services,
      svcScheduleSeconds := test_two_services.map (fun svc => parse_sched_to_seconds svc.sched),
      currentServiceIdx := 0 }

/-- A concrete failed fetch result, used to witness the mailbox claims. -/
def test_fetch_result : FetchResult :=
  ⟨[], none, false, none⟩

/-- The startup state with a result waiting in the mailbox, used to witness
the mailbox claims. -/
def test_pending_state : ProgState :=
  { init_state (fun _ => 8) with pendingRefreshResult := some test_fetch_result }

/-! ## Lemmas about the string primitives -/

theorem pyIsSpace_ne_colon {c : Char} (h : pyIsSpace c = true) : c ≠ ':' := by
  simp [pyIsSpace] at h
  rcases h with ((((rfl | rfl) | rfl) | rfl) | rfl) | rfl <;> decide

theorem pyIsSpace_not_digit {c : Char} (h : pyIsSpace c = true) : c.isDigit = false := by
  simp [pyIsSpace] at h
  rcases h with ((((rfl | rfl) | rfl) | rfl) | rfl) | rfl <;> decide

theorem notColon_of_space {c : Char} (h : pyIsSpace c = true) : notColon c = true := by
  simp [notColon]
  exact pyIsSpace_ne_colon h

theorem dropWhile_idem {α : Type} (p : α → Bool) :
    ∀ l : List α, (l.dropWhile p).dropWhile p = l.dropWhile p
  | [] => rfl
  | c :: t => by
    by_cases h : p c
    · rw [List.dropWhile_cons, if_pos h, dropWhile_idem p t]
    · rw [List.dropWhile_cons, if_neg h, List.dropWhile_cons, if_neg h]

theorem mem_dropWhile_iff_of_ne {α : Type} {a : α} {p : α → Bool}
    (hp : ∀ c, p c = true → c ≠ a) :
    ∀ l : List α, (a ∈ l.dropWhile p) ↔ a ∈ l
  | [] => Iff.rfl
  | c :: t => by
    by_cases h : p c
    · rw [List.dropWhile_cons, if_pos h, mem_dropWhile_iff_of_ne hp t, List.mem_cons]
      constructor
      · exact Or.inr
      · intro hm
        rcases hm with h1 | h2
        · exact absurd h1.symm (hp c h)
        · exact h2
    · rw [List.dropWhile_cons, if_neg h]

theorem mem_colon_dropWhile_space {cs : List Char} :
    ':' ∈ cs.dropWhile pyIsSpace ↔ ':' ∈ cs :=
  mem_dropWhile_iff_of_ne (fun _ h => pyIsSpace_ne_colon h) cs

theorem mem_colon_pyStrip (cs : List Char) : ':' ∈ pyStrip cs ↔ ':' ∈ cs := by
  unfold pyStrip dropTrailingSpaces
  rw [List.mem_reverse, mem_dropWhile_iff_of_ne (fun _ h => pyIsSpace_ne_colon h),
    List.mem_reverse, mem_colon_dropWhile_space]

theorem dropTrailingSpaces_decomp (v : List Char) :
    ∃ sp, v = dropTrailingSpaces v ++ sp ∧ ∀ c ∈ sp, pyIsSpace c = true := by
  refine ⟨(v.reverse.takeWhile pyIsSpace).reverse, ?_, ?_⟩
  · unfold dropTrailingSpaces
    conv_lhs => rw [← List.reverse_reverse v,
      ← List.takeWhile_append_dropWhile pyIsSpace v.reverse]
    rw [List.reverse_append]
  · intro c hc
    exact List.mem_takeWhile_imp (List.mem_reverse.1 hc)

theorem mem_colon_dropTrailing {v : List Char} (h : ':' ∈ v) :
    ':' ∈ dropTrailingSpaces v := by
  obtain ⟨sp, hv, hsp⟩ := dropTrailingSpaces_decomp v
  rcases List.mem_append.1 (hv ▸ h) with h1 | h2
  · exact h1
  · exact absurd (hsp _ h2) (by intro hs; exact pyIsSpace_ne_colon hs rfl)

theorem takeWhile_notColon_dropWhile_space :
    ∀ cs : List Char, (cs.dropWhile pyIsSpace).takeWhile notColon
      = (cs.takeWhile notColon).dropWhile pyIsSpace
  | [] => rfl
  | c :: t => by
    by_cases hs : pyIsSpace c
    · rw [List.dropWhile_cons, if_pos hs, takeWhile_notColon_dropWhile_space t,
        List.takeWhile_cons, if_pos (notColon_of_space hs),
        List.dropWhile_cons, if_pos hs]
    · rw [List.dropWhile_cons, if_neg hs]
      by_cases hc : notColon c
      · rw [List.takeWhile_cons, if_pos hc, List.dropWhile_cons, if_neg hs]
      · rw [List.takeWhile_cons, if_neg hc, List.dropWhile_nil]

theorem dropWhile_notColon_dropWhile_space :
    ∀ cs : List Char, (cs.dropWhile pyIsSpace).dropWhile notColon
      = cs.dropWhile notColon
  | [] => rfl
  | c :: t => by
    by_cases hs : pyIsSpace c
    · rw [List.dropWhile_cons, if_pos hs, dropWhile_notColon_dropWhile_space t,
        List.dropWhile_cons, if_pos (notColon_of_space hs)]
    · rw [List.dropWhile_cons, if_neg hs]

theorem takeWhile_notColon_append {w : List Char} (sp : List Char) (h : ':' ∈ w) :
    (w ++ sp).takeWhile notColon = w.takeWhile notColon := by
  induction w with
  | nil => cases h
  | cons c t ih =>
    by_cases hc : notColon c
    · have h' : ':' ∈ t := by
        rcases List.mem_cons.1 h with e | h'
        · exact absurd e.symm (by simpa [notColon] using hc)
        · exact h'
      rw [List.cons_append, List.takeWhile_cons, if_pos hc,
        List.takeWhile_cons, if_pos hc, ih h']
    · rw [List.cons_append, List.takeWhile_cons, if_neg hc,
        List.takeWhile_cons, if_neg hc]

theorem dropWhile_notColon_append {w : List Char} (sp : List Char) (h : ':' ∈ w) :
    (w ++ sp).dropWhile notColon = w.dropWhile notColon ++ sp := by
  induction w with
  | nil => cases h
  | cons c t ih =>
    by_cases hc : notColon c
    · have h' : ':' ∈ t := by
        rcases List.mem_cons.1 h with e | h'
        · exact absurd e.symm (by simpa [notColon] using hc)
        · exact h'
      rw [List.cons_append, List.dropWhile_cons, if_pos hc,
        List.dropWhile_cons, if_pos hc, ih h']
    · rw [List.cons_append, List.dropWhile_cons, if_neg hc,
        List.dropWhile_cons, if_neg hc, List.cons_append]

theorem dropWhile_notColon_ne_nil {w : List Char} (h : ':' ∈ w) :
    w.dropWhile notColon ≠ [] := by
  induction w with
  | nil => cases h
  | cons c t ih =>
    by_cases hc : notColon c
    · have h' : ':' ∈ t := by
        rcases List.mem_cons.1 h with e | h'
        · exact absurd e.symm (by simpa [notColon] using hc)
        · exact h'
      rw [List.dropWhile_cons, if_pos hc]
      exact ih h'
    · rw [List.dropWhile_cons, if_neg hc]
      exact List.cons_ne_nil c t

theorem collect_nondigits {sp : List Char} (hsp : ∀ c ∈ sp, c.isDigit = false) :
    ∀ acc, collect_minute_digits sp acc = acc := by
  induction sp with
  | nil => intro acc; rfl
  | cons c t ih =>
    intro acc
    rw [collect_minute_digits, if_neg]
    · exact ih (fun x hx => hsp x (List.mem_cons_of_mem c hx)) acc
    · simp [hsp c (List.mem_cons_self c t)]

theorem collect_append_nondigits {sp : List Char}
    (hsp : ∀ c ∈ sp, c.isDigit = false) :
    ∀ m acc, collect_minute_digits (m ++ sp) acc = collect_minute_digits m acc
  | [], acc => collect_nondigits hsp acc
  | c :: m', acc => by
    rw [List.cons_append, collect_minute_digits, collect_minute_digits]
    by_cases hd : c.isDigit
    · rw [if_pos hd, if_pos hd]
      by_cases h2 : (acc ++ [c]).length == 2
      · rw [if_pos h2, if_pos h2]
      · rw [if_neg h2, if_neg h2]
        exact collect_append_nondigits hsp m' (acc ++ [c])
    · rw [if_neg hd, if_neg hd]
      exact collect_append_nondigits hsp m' acc

theorem pyInt_dropWhile_space (u : List Char) :
    pyInt (u.dropWhile pyIsSpace) = pyInt u := by
  have h : pyStrip (u.dropWhile pyIsSpace) = pyStrip u := by
    unfold pyStrip
    rw [dropWhile_idem]
  unfold pyInt
  rw [h]

theorem takeWhile_notColon_dropTrailing {v : List Char} (h : ':' ∈ v) :
    (dropTrailingSpaces v).takeWhile notColon = v.takeWhile notColon := by
  obtain ⟨sp, hv, _⟩ := dropTrailingSpaces_decomp v
  conv_rhs => rw [hv]
  rw [takeWhile_notColon_append sp (mem_colon_dropTrailing h)]

theorem pyInt_hour_pyStrip {cs : List Char} (h : ':' ∈ cs) :
    pyInt ((pyStrip cs).takeWhile notColon) = pyInt (cs.takeWhile notColon) := by
  unfold pyStrip
  rw [takeWhile_notColon_dropTrailing (mem_colon_dropWhile_space.2 h),
    takeWhile_notColon_dropWhile_space]
  exact pyInt_dropWhile_space _

theorem afterFirstColon_append {w : List Char} (sp : List Char) (h : ':' ∈ w) :
    afterFirstColon (w ++ sp) = afterFirstColon w ++ sp := by
  unfold afterFirstColon
  rw [dropWhile_notColon_append sp h]
  rcases hd : w.dropWhile notColon with _ | ⟨x, xs⟩
  · exact absurd hd (dropWhile_notColon_ne_nil h)
  · rfl

theorem collect_afterFirstColon_pyStrip {cs : List Char} (h : ':' ∈ cs) (acc : List Char) :
    collect_minute_digits (afterFirstColon (pyStrip cs)) acc
      = collect_minute_digits (afterFirstColon cs) acc := by
  have hu : ':' ∈ cs.dropWhile pyIsSpace := mem_colon_dropWhile_space.2 h
  obtain ⟨sp, hv, hsp⟩ := dropTrailingSpaces_decomp (cs.dropWhile pyIsSpace)
  have hstep : afterFirstColon (cs.dropWhile pyIsSpace)
      = afterFirstColon (pyStrip cs) ++ sp := by
    conv_lhs => rw [hv]
    exact afterFirstColon_append sp (mem_colon_dropTrailing hu)
  have hsame : afterFirstColon (cs.dropWhile pyIsSpace) = afterFirstColon cs := by
    unfold afterFirstColon
    rw [dropWhile_notColon_dropWhile_space]
  rw [← hsame, hstep,
    collect_append_nondigits (fun c hc => pyIsSpace_not_digit (hsp c hc)) _ acc]

theorem pyStrip_nil : pyStrip [] = [] := rfl

theorem parse_sched_eq_spec (value : String) :
    parse_sched_to_seconds value = parse_sched_spec value := by
  by_cases hcol : ':' ∈ value.data
  · have hcolS : ':' ∈ pyStrip value.data := (mem_colon_pyStrip value.data).2 hcol
    have hneS : ¬((pyStrip value.data).isEmpty = true) := by
      rcases hps : pyStrip value.data with _ | ⟨x, xs⟩
      · rw [hps] at hcolS; cases hcolS
      · simp
    have hne : ¬(value.data.isEmpty = true) := by
      rcases hd : value.data with _ | ⟨x, xs⟩
      · rw [hd] at hcol; cases hcol
      · simp
    simp only [parse_sched_to_seconds, parse_sched_spec]
    rw [if_neg hneS, if_neg hne, if_pos hcolS, if_pos hcol,
      pyInt_hour_pyStrip hcol, collect_afterFirstColon_pyStrip hcol]
    cases hpi : pyInt (value.data.takeWhile notColon) with
    | none => simp
    | some hour => rfl
  · have hcolS : ¬(':' ∈ pyStrip value.data) :=
      fun hh => hcol ((mem_colon_pyStrip value.data).1 hh)
    simp only [parse_sched_to_seconds, parse_sched_spec]
    by_cases hne : (pyStrip value.data).isEmpty = true
    · rw [if_pos hne]
      by_cases hd : value.data.isEmpty = true
      · rw [if_pos hd]
      · rw [if_neg hd, if_neg hcol]
    · rw [if_neg hne, if_neg hcolS]
      by_cases hd : value.data.isEmpty = true
      · exfalso
        apply hne
        rw [List.isEmpty_iff] at hd
        rw [hd, pyStrip_nil]
        rfl
      · rw [if_neg hd, if_neg hcol]

theorem parse_sched_ub {value : String} {n : Nat}
    (h : parse_sched_to_seconds value = some n) : n ≤ 86340 := by
  simp only [parse_sched_to_seconds] at h
  split at h
  · cases h
  · split at h
    · split at h
      · cases h
      · rename_i hour _
        split at h
        · cases h
        · split at h
          · cases h
          · rename_i hmin
            injection h with h'
            have h1 : hour % 24 < 24 := Int.emod_lt_of_pos hour (by decide)
            have h2 : 0 ≤ hour % 24 := Int.emod_nonneg hour (by decide)
            omega
    · cases h

/-! ## Lemmas about the sort order -/

theorem pyCharsLe_total : ∀ a b : List Char, pyCharsLe a b = true ∨ pyCharsLe b a = true
  | [], _ => Or.inl rfl
  | _ :: _, [] => Or.inr rfl
  | a :: as, b :: bs => by
    by_cases h1 : a.toNat < b.toNat
    · left
      simp only [pyCharsLe]
      rw [if_pos h1]
    · by_cases h2 : b.toNat < a.toNat
      · right
        simp only [pyCharsLe]
        rw [if_pos h2]
      · rcases pyCharsLe_total as bs with h | h
        · left
          simp only [pyCharsLe]
          rw [if_neg h1, if_pos (by rw [beq_iff_eq]; omega)]
          exact h
        · right
          simp only [pyCharsLe]
          rw [if_neg h2, if_pos (by rw [beq_iff_eq]; omega)]
          exact h

theorem pyCharsLe_trans : ∀ a b c : List Char,
    pyCharsLe a b = true → pyCharsLe b c = true → pyCharsLe a c = true
  | [], _, _, _, _ => rfl
  | _ :: _, [], _, h1, _ => by simp [pyCharsLe] at h1
  | _ :: _, _ :: _, [], _, h2 => by simp [pyCharsLe] at h2
  | a :: as, b :: bs, c :: cs, h1, h2 => by
    simp only [pyCharsLe] at h1 h2 ⊢
    by_cases hab : a.toNat < b.toNat
    · by_cases hbc : b.toNat < c.toNat
      · rw [if_pos (show a.toNat < c.toNat by omega)]
      · rw [if_neg hbc] at h2
        by_cases hbc2 : (b.toNat == c.toNat) = true
        · have he : b.toNat = c.toNat := by rwa [beq_iff_eq] at hbc2
          rw [if_pos (show a.toNat < c.toNat by omega)]
        · rw [if_neg hbc2] at h2
          cases h2
    · rw [if_neg hab] at h1
      by_cases hab2 : (a.toNat == b.toNat) = true
      · rw [if_pos hab2] at h1
        have heab : a.toNat = b.toNat := by rwa [beq_iff_eq] at hab2
        by_cases hbc : b.toNat < c.toNat
        · rw [if_pos (show a.toNat < c.toNat by omega)]
        · rw [if_neg hbc] at h2
          by_cases hbc2 : (b.toNat == c.toNat) = true
          · rw [if_pos hbc2] at h2
            have hebc : b.toNat = c.toNat := by rwa [beq_iff_eq] at hbc2
            rw [if_neg (show ¬(a.toNat < c.toNat) by omega),
              if_pos (show (a.toNat == c.toNat) = true by rw [beq_iff_eq]; omega)]
            exact pyCharsLe_trans as bs cs h1 h2
          · rw [if_neg hbc2] at h2
            cases h2
      · rw [if_neg hab2] at h1
        cases h1

theorem keyLe_total (x y : Nat × String) : keyLe x y = true ∨ keyLe y x = true := by
  unfold keyLe
  by_cases h1 : x.1 < y.1
  · left
    rw [if_pos h1]
  · by_cases h2 : y.1 < x.1
    · right
      rw [if_pos h2]
    · rcases pyCharsLe_total x.2.data y.2.data with h | h
      · left
        rw [if_neg h1, if_pos (by rw [beq_iff_eq]; omega)]
        exact h
      · right
        rw [if_neg h2, if_pos (by rw [beq_iff_eq]; omega)]
        exact h

theorem keyLe_trans {x y z : Nat × String}
    (h1 : keyLe x y = true) (h2 : keyLe y z = true) : keyLe x z = true := by
  unfold keyLe at h1 h2 ⊢
  by_cases hxy : x.1 < y.1
  · by_cases hyz : y.1 < z.1
    · rw [if_pos (show x.1 < z.1 by omega)]
    · rw [if_neg hyz] at h2
      by_cases hyz2 : (y.1 == z.1) = true
      · have he : y.1 = z.1 := by rwa [beq_iff_eq] at hyz2
        rw [if_pos (show x.1 < z.1 by omega)]
      · rw [if_neg hyz2] at h2
        cases h2
  · rw [if_neg hxy] at h1
    by_cases hxy2 : (x.1 == y.1) = true
    · rw [if_pos hxy2] at h1
      have hexy : x.1 = y.1 := by rwa [beq_iff_eq] at hxy2
      by_cases hyz : y.1 < z.1
      · rw [if_pos (show x.1 < z.1 by omega)]
      · rw [if_neg hyz] at h2
        by_cases hyz2 : (y.1 == z.1) = true
        · rw [if_pos hyz2] at h2
          have heyz : y.1 = z.1 := by rwa [beq_iff_eq] at hyz2
          rw [if_neg (show ¬(x.1 < z.1) by omega),
            if_pos (show (x.1 == z.1) = true by rw [beq_iff_eq]; omega)]
          exact pyCharsLe_trans _ _ _ h1 h2
        · rw [if_neg hyz2] at h2
          cases h2
    · rw [if_neg hxy2] at h1
      cases h1

instance : IsTotal Service serviceLe :=
  ⟨fun a b => keyLe_total (service_sort_key a) (service_sort_key b)⟩

instance : IsTrans Service serviceLe :=
  ⟨fun _ _ _ h1 h2 => keyLe_trans h1 h2⟩

/-! ## Lemmas about index selection -/

theorem findGo_spec (nowSecs : Nat) :
    ∀ (l : List (Option Nat)) (idx fb : Nat) (low : Option Nat),
    findGo nowSecs l idx fb low =
      (match firstQualIdx nowSecs l with
      | some j => idx + j
      | none =>
        match firstMinIdx l with
        | none => fb
        | some (i, v) => if isNewLowest low v then idx + i else fb)
  | [], idx, fb, low => rfl
  | none :: rest, idx, fb, low => by
    rw [show findGo nowSecs (none :: rest) idx fb low
        = findGo nowSecs rest (idx + 1) fb low from rfl,
      findGo_spec nowSecs rest (idx + 1) fb low]
    rcases hq : firstQualIdx nowSecs rest with _ | j
    · rcases hm : firstMinIdx rest with _ | ⟨i, v⟩
      · simp [firstQualIdx, firstMinIdx, hq, hm]
      · simp only [firstQualIdx, firstMinIdx, hq, hm]
        by_cases hb : isNewLowest low v = true
        · simp [hb]
          ac_rfl
        · simp [hb]
    · simp only [firstQualIdx, hq]
      simp
      ac_rfl
  | some s :: rest, idx, fb, low => by
    by_cases hqs : nowSecs ≤ s
    · simp [findGo, firstQualIdx, hqs]
    · have hred : findGo nowSecs (some s :: rest) idx fb low
          = findGo nowSecs rest (idx + 1) (if isNewLowest low s then idx else fb)
              (if isNewLowest low s then some s else low) := by
        simp [findGo, hqs]
      rw [hred, findGo_spec nowSecs rest (idx + 1) _ _]
      rcases hqr : firstQualIdx nowSecs rest with _ | j
      · rcases hm : firstMinIdx rest with _ | ⟨i, v⟩
        · simp only [firstQualIdx, firstMinIdx, hqr, hm]
          simp [hqs]
        · simp only [firstQualIdx, firstMinIdx, hqr, hm]
          simp [hqs]
          by_cases hvs : v < s
          · simp [hvs]
            rcases low with _ | lo
            · simp [isNewLowest, hvs]
              ac_rfl
            · by_cases hslo : s < lo
              · simp [isNewLowest, hslo, hvs, show v < lo by omega]
                ac_rfl
              · simp [isNewLowest, hslo]
                by_cases hvlo : v < lo
                · simp [hvlo]
                  ac_rfl
                · simp [hvlo]
          · simp [hvs]
            rcases low with _ | lo
            · simp [isNewLowest, hvs]
            · by_cases hslo : s < lo
              · simp [isNewLowest, hslo, hvs]
              · simp [isNewLowest, hslo, show ¬(v < lo) by omega]
      · simp [firstQualIdx, hqr, hqs]
        ac_rfl

theorem firstQualIdx_lt (nowSecs : Nat) :
    ∀ (l : List (Option Nat)) (j : Nat),
    firstQualIdx nowSecs l = some j → j < l.length
  | [], j, h => by cases h
  | o :: rest, j, h => by
    simp only [firstQualIdx] at h
    split at h
    · cases h
      simp
    · rcases hq : firstQualIdx nowSecs rest with _ | j'
      · rw [hq] at h
        cases h
      · rw [hq] at h
        simp only [Option.map] at h
        cases h
        have := firstQualIdx_lt nowSecs rest j' hq
        simp only [List.length_cons]
        omega

theorem firstMinIdx_lt :
    ∀ (l : List (Option Nat)) (i v : Nat),
    firstMinIdx l = some (i, v) → i < l.length
  | [], _, _, h => by cases h
  | none :: rest, i, v, h => by
    simp only [firstMinIdx] at h
    rcases hm : firstMinIdx rest with _ | p
    · rw [hm] at h
      cases h
    · rw [hm] at h
      simp only [Option.map, Option.some.injEq] at h
      have hlt := firstMinIdx_lt rest p.1 p.2 (by rw [hm])
      have hi : i = p.1 + 1 := by
        have hfst := congrArg Prod.fst h
        simpa using hfst.symm
      simp only [List.length_cons]
      omega
  | some s :: rest, i, v, h => by
    simp only [firstMinIdx] at h
    split at h
    · simp only [Option.some.injEq] at h
      have hi : i = 0 := by
        have hfst := congrArg Prod.fst h
        simpa using hfst.symm
      simp [hi]
    · rename_i i' v' hm
      split at h
      · simp only [Option.some.injEq] at h
        have hi : i = i' + 1 := by
          have hfst := congrArg Prod.fst h
          simpa using hfst.symm
        have hlt := firstMinIdx_lt rest i' v' hm
        simp only [List.length_cons]
        omega
      · simp only [Option.some.injEq] at h
        have hi : i = 0 := by
          have hfst := congrArg Prod.fst h
          simpa using hfst.symm
        simp [hi]

theorem targetSpec_lt {scheds : List (Option Nat)} (nowSecs : Nat)
    (h : scheds ≠ []) : targetSpec scheds nowSecs < scheds.length := by
  unfold targetSpec
  rcases hq : firstQualIdx nowSecs scheds with _ | j
  · rcases hm : firstMinIdx scheds with _ | ⟨i, v⟩
    · simpa using List.length_pos.2 h
    · exact firstMinIdx_lt scheds i v hm
  · exact firstQualIdx_lt nowSecs scheds j hq

theorem find_eq_targetSpec {svcs : List Service} (scheds : List (Option Nat))
    (nowSecs : Nat) (h : svcs ≠ []) :
    find_service_index_for_time svcs scheds nowSecs
      = targetSpec scheds nowSecs := by
  have hs : svcs.isEmpty = false := by
    rcases svcs with _ | ⟨a, t⟩
    · exact absurd rfl h
    · rfl
  rcases scheds with _ | ⟨o, rest⟩
  · simp [find_service_index_for_time, targetSpec, firstQualIdx, firstMinIdx, hs]
  · unfold find_service_index_for_time
    simp only [hs, List.isEmpty_cons, Bool.or_self, Bool.false_or]
    rw [if_neg (by simp), findGo_spec]
    unfold targetSpec
    rcases hq : firstQualIdx nowSecs (o :: rest) with _ | j
    · rcases hm : firstMinIdx (o :: rest) with _ | ⟨i, v⟩ <;>
        simp [hq, hm, isNewLowest]
    · simp [hq]

theorem find_service_index_lt {svcs : List Service} {scheds : List (Option Nat)}
    (nowSecs : Nat) (h : svcs ≠ []) (hlen : scheds.length ≤ svcs.length) :
    find_service_index_for_time svcs scheds nowSecs < svcs.length := by
  rcases scheds with _ | ⟨o, rest⟩
  · simpa [find_service_index_for_time] using List.length_pos.2 h
  · rw [find_eq_targetSpec _ _ h]
    exact lt_of_lt_of_le (targetSpec_lt nowSecs (by simp)) hlen

theorem apply_service_fields (measure : String → Nat) (svc : Service)
    (st : ProgState) :
    (apply_service measure svc st).svcServices = st.svcServices
    ∧ (apply_service measure svc st).currentServiceIdx = st.currentServiceIdx
    ∧ (apply_service measure svc st).svcScheduleSeconds = st.svcScheduleSeconds
    ∧ (apply_service measure svc st).svcState = some svc := by
  simp [apply_service]

/-! ## Lemmas about `apply_services_payload` -/

theorem apply_services_payload_fields (measure : String → Nat)
    (nowTime : Option (Nat × Nat × Nat)) (nowMs : Int)
    (services : List Service) (sourceLabel : Option Source) (st : ProgState) :
    (apply_services_payload measure nowTime nowMs services sourceLabel st).svcServices
        = pySorted services
    ∧ (apply_services_payload measure nowTime nowMs services sourceLabel st).svcScheduleSeconds
        = (pySorted services).map (fun svc => parse_sched_to_seconds svc.sched)
    ∧ (apply_services_payload measure nowTime nowMs services sourceLabel st).currentServiceIdx
        = (match nowTime with
          | some (hh, mm, ss) =>
            find_service_index_for_time (pySorted services)
              ((pySorted services).map (fun svc => parse_sched_to_seconds svc.sched))
              (hh * 3600 + mm * 60 + ss)
          | none => 0)
    ∧ (apply_services_payload measure nowTime nowMs services sourceLabel st).lastSource
        = sourceLabel
    ∧ (apply_services_payload measure nowTime nowMs services sourceLabel st).localServicesCached
        = (if sourceLabel = some Source.localSrc then some (pySorted services)
          else st.localServicesCached)
    ∧ (apply_services_payload measure nowTime nowMs services sourceLabel st).wifiOk
        = st.wifiOk
    ∧ (apply_services_payload measure nowTime nowMs services sourceLabel st).pendingRefreshResult
        = st.pendingRefreshResult
    ∧ (apply_services_payload measure nowTime nowMs services sourceLabel st).refreshThreadRunning
        = st.refreshThreadRunning := by
  rcases nowTime with _ | ⟨hh, mm, ss⟩ <;>
    simp [apply_services_payload, apply_service]

theorem apply_fetched_preserves_async (measure : String → Nat)
    (nowTime : Option (Nat × Nat × Nat)) (nowMs : Int)
    (result : Option FetchResult) (st : ProgState) :
    (apply_fetched_services measure nowTime nowMs result st).2.pendingRefreshResult
      = st.pendingRefreshResult
    ∧ (apply_fetched_services measure nowTime nowMs result st).2.refreshThreadRunning
      = st.refreshThreadRunning := by
  rcases result with _ | r
  · exact ⟨rfl, rfl⟩
  · by_cases he : r.services.isEmpty <;> cases hw : r.wifiDrop <;>
      simp [apply_fetched_services, he, hw] <;>
      exact ⟨(apply_services_payload_fields _ _ _ _ _ _).2.2.2.2.2.2.1,
        (apply_services_payload_fields _ _ _ _ _ _).2.2.2.2.2.2.2⟩

theorem poll_on_empty (measure : String → Nat)
    (nowTime : Option (Nat × Nat × Nat)) (nowMs : Int) {st : ProgState}
    (hp : st.pendingRefreshResult = none) :
    poll_async_refresh measure nowTime nowMs st = (none, st) := by
  simp [poll_async_refresh, hp]

theorem poll_clears_mailbox (measure : String → Nat)
    (nowTime : Option (Nat × Nat × Nat)) (nowMs : Int) (st : ProgState) :
    (poll_async_refresh measure nowTime nowMs st).2.pendingRefreshResult = none := by
  rcases hp : st.pendingRefreshResult with _ | r
  · simp [poll_async_refresh, hp]
  · simp only [poll_async_refresh, hp]
    rw [(apply_fetched_preserves_async measure nowTime nowMs (some r)
      { st with pendingRefreshResult := none }).1]

theorem pySorted_ne_nil {services : List Service} (h : services ≠ []) :
    pySorted services ≠ [] := by
  intro he
  have hp := List.perm_insertionSort serviceLe services
  unfold pySorted at he
  rw [he] at hp
  exact h hp.symm.eq_nil

/-! ## Lemmas about the rotation operations -/

theorem auto_advance_none_time (measure : String → Nat) (nowMs : Int)
    (st : ProgState) :
    auto_advance_if_due measure nowMs none st = (st, false) := by
  by_cases h : st.svcServices.isEmpty = true <;>
    simp [auto_advance_if_due, h]

theorem auto_advance_shape (measure : String → Nat) (nowMs : Int)
    (nowTime : Option (Nat × Nat × Nat)) (st : ProgState) :
    (auto_advance_if_due measure nowMs nowTime st).1.svcServices = st.svcServices
    ∧ (((nowTime = none ∨ st.svcServices = [])
          ∧ (auto_advance_if_due measure nowMs nowTime st).1.currentServiceIdx
            = st.currentServiceIdx)
      ∨ (auto_advance_if_due measure nowMs nowTime st).1.currentServiceIdx
          = (if st.svcServices.length ≤ st.currentServiceIdx then 0
            else st.currentServiceIdx)
      ∨ ∃ hh mm ss, nowTime = some (hh, mm, ss)
          ∧ (auto_advance_if_due measure nowMs nowTime st).1.currentServiceIdx
            = find_service_index_for_time st.svcServices st.svcScheduleSeconds
                (hh * 3600 + mm * 60 + ss)) := by
  rcases nowTime with _ | ⟨hh, mm, ss⟩
  · rw [auto_advance_none_time]
    exact ⟨rfl, Or.inl ⟨Or.inl rfl, rfl⟩⟩
  · by_cases hie : st.svcServices.isEmpty = true
    · have hnil : st.svcServices = [] := List.isEmpty_iff.1 hie
      constructor
      · simp [auto_advance_if_due, hie]
      · exact Or.inl ⟨Or.inr hnil, by simp [auto_advance_if_due, hie]⟩
    · simp only [auto_advance_if_due, hie, Bool.false_eq_true, if_false]
      constructor
      · repeat' split
        all_goals simp [apply_service]
      · repeat' split
        all_goals
          first
          | (refine Or.inr (Or.inr ⟨hh, mm, ss, rfl, ?_⟩)
             simp [apply_service]
             done)
          | (refine Or.inr (Or.inl ?_)
             simp_all)

/-! ## Concrete evaluations of the parser on the spec's literal examples -/

example : parse_sched_to_seconds "09:05" = some 32700 := by decide
example : parse_sched_to_seconds "25:70" = none := by decide
example : parse_sched_to_seconds "12:24xyz" = some 44640 := by decide
example : parse_sched_to_seconds "" = none := by decide
example : parse_sched_to_seconds ":30" = none := by decide
example : claimNoneCond ":30" = false := by decide
example : parse_sched_to_seconds "9:5" = some 32700 := by decide
example : parse_sched_to_seconds "-5:30" = some (19 * 3600 + 30 * 60) := by decide

/-! ## Claim theorems -/

/-- C3, counterexample: the claim's "returns None exactly when" condition
list is incomplete.  At input ":30" the string is non-empty, contains a
colon, has digit characters after the colon, and the minute 30 is in range —
so the claim says the parser must succeed — yet `parse_sched_to_seconds`
returns `none`, because the text before the colon is empty and fails
`int()`. -/
theorem C3_claim_counterexample :
    parse_sched_to_seconds ":30" = none ∧ claimNoneCond ":30" = false := by
  decide

/-- C3 (amended): `parse_sched_to_seconds` returns `none` exactly when the
input is empty, contains no colon, has no digit characters after the colon,
has a minute (formed from up to the first two digit characters after the
colon) outside `[0, 59]`, or — the amendment — the text before the first
colon does not parse as an integer; otherwise it returns
`(hour mod 24) * 3600 + minute * 60`.  Proved as a pointwise equality with
the specification-side parser `parse_sched_spec`, together with the claim's
four literal examples. -/
theorem C3_parse_contract :
    (∀ value : String, parse_sched_to_seconds value = parse_sched_spec value)
    ∧ parse_sched_to_seconds "09:05" = some 32700
    ∧ parse_sched_to_seconds "25:70" = none
    ∧ parse_sched_to_seconds "12:24xyz" = some 44640
    ∧ parse_sched_to_seconds "" = none :=
  ⟨parse_sched_eq_spec, by decide, by decide, by decide, by decide⟩

/-- C1: with a non-empty service list, an aligned schedule index and an
in-bounds current index, `auto_advance_if_due` picks as target the index of
the first service whose parsed schedule is at or after `now_secs`, falling
back to the first index with the lowest parsed schedule, falling back to 0
when nothing parses (`find_service_index_for_time` equals the
specification-side `targetSpec`); and it moves the current index to the
target exactly when (a) the current entry's schedule is unknown, more than
one service exists and the target differs, or (b) the current entry's
schedule `s` is known, `now_secs` is strictly past `s` and the target
differs — otherwise the index is unchanged. -/
theorem C1_auto_advance_rule :
    ∀ (measure : String → Nat) (nowMs : Int) (hh mm ss : Nat) (st : ProgState),
    st.svcServices ≠ [] →
    st.svcScheduleSeconds
      = st.svcServices.map (fun svc => parse_sched_to_seconds svc.sched) →
    st.currentServiceIdx < st.svcServices.length →
    (find_service_index_for_time st.svcServices st.svcScheduleSeconds
        (hh * 3600 + mm * 60 + ss)
      = targetSpec st.svcScheduleSeconds (hh * 3600 + mm * 60 + ss))
    ∧ ((auto_advance_if_due measure nowMs (some (hh, mm, ss)) st).1.currentServiceIdx
      = (match st.svcScheduleSeconds.getD st.currentServiceIdx none with
        | none =>
          if 1 < st.svcServices.length
              ∧ targetSpec st.svcScheduleSeconds (hh * 3600 + mm * 60 + ss)
                ≠ st.currentServiceIdx
          then targetSpec st.svcScheduleSeconds (hh * 3600 + mm * 60 + ss)
          else st.currentServiceIdx
        | some s =>
          if s < hh * 3600 + mm * 60 + ss
              ∧ targetSpec st.svcScheduleSeconds (hh * 3600 + mm * 60 + ss)
                ≠ st.currentServiceIdx
          then targetSpec st.svcScheduleSeconds (hh * 3600 + mm * 60 + ss)
          else st.currentServiceIdx)) := by
  intro measure nowMs hh mm ss st hne hal hidx
  have hfind := find_eq_targetSpec st.svcScheduleSeconds
    (hh * 3600 + mm * 60 + ss) hne
  refine ⟨hfind, ?_⟩
  have hie : st.svcServices.isEmpty = false := by
    rcases hsv : st.svcServices with _ | ⟨a, t⟩
    · exact absurd hsv hne
    · rfl
  have hlen : st.svcScheduleSeconds.length = st.svcServices.length := by
    rw [hal, List.length_map]
  have hse : st.svcScheduleSeconds.isEmpty = false := by
    rcases hsc : st.svcScheduleSeconds with _ | ⟨b, u⟩
    · rw [hsc] at hlen
      rcases hsv : st.svcServices with _ | ⟨a, t⟩
      · exact absurd hsv hne
      · rw [hsv] at hlen
        simp at hlen
    · rfl
  have hclamp : ¬(st.svcServices.length ≤ st.currentServiceIdx) := by omega
  have hguard : (!st.svcScheduleSeconds.isEmpty
      && decide (st.currentServiceIdx < st.svcScheduleSeconds.length)) = true := by
    rw [hse]
    simp
    omega
  simp only [auto_advance_if_due, hie, Bool.false_eq_true, if_false]
  rw [if_neg hclamp, if_pos hguard, hfind]
  rcases hcur : st.svcScheduleSeconds.getD st.currentServiceIdx none with _ | s
  · by_cases h1 : 1 < st.svcServices.length <;>
      by_cases h2 : targetSpec st.svcScheduleSeconds (hh * 3600 + mm * 60 + ss)
        = st.currentServiceIdx <;>
      simp [h1, h2, apply_service]
  · by_cases h1 : s < hh * 3600 + mm * 60 + ss <;>
      by_cases h2 : targetSpec st.svcScheduleSeconds (hh * 3600 + mm * 60 + ss)
        = st.currentServiceIdx <;>
      simp [h1, h2, apply_service]

/-- C1, witness: on two services scheduled 09:00 and 10:00 with the first
current, the clock at 08:59 produces no advance, and at 09:01 the index
moves to the differing target 1. -/
theorem C1_auto_advance_rule_witness :
    ((auto_advance_if_due (fun _ => 8) 0 (some (8, 59, 0))
        test_two_state).1.currentServiceIdx = 0)
    ∧ ((auto_advance_if_due (fun _ => 8) 0 (some (9, 1, 0))
        test_two_state).1.currentServiceIdx = 1) := by
  constructor
  · exact ((C1_auto_advance_rule (fun _ => 8) 0 8 59 0 test_two_state
      (by decide) (by decide) (by decide)).2).trans (by decide)
  · exact ((C1_auto_advance_rule (fun _ => 8) 0 9 1 0 test_two_state
      (by decide) (by decide) (by decide)).2).trans (by decide)

/-- C4: after any refresh, `apply_services_payload` stores a list that is a
permutation of its input sorted ascending by the `service_sort_key` order
(parsed schedule seconds with 86400 substituted on parse failure, then the
destination string), so unparseable schedules sort to the end; and on the
claim's example, scheduled times ["14:00","09:00","bad"] come out ordered
["09:00","14:00","bad"]. -/
theorem C4_sort_order :
    (∀ (measure : String → Nat) (nowTime : Option (Nat × Nat × Nat))
        (nowMs : Int) (services : List Service) (sourceLabel : Option Source)
        (st : ProgState),
      List.Sorted serviceLe
        ((apply_services_payload measure nowTime nowMs services sourceLabel
          st).svcServices)
      ∧ ((apply_services_payload measure nowTime nowMs services sourceLabel
          st).svcServices).Perm services)
    ∧ (apply_services_payload (fun _ => 8) none 0
          [⟨"14:00", "X", "s", "c"⟩, ⟨"09:00", "Y", "s", "c"⟩,
            ⟨"bad", "Z", "s", "c"⟩] none
          (init_state (fun _ => 8))).svcServices
        = [⟨"09:00", "Y", "s", "c"⟩, ⟨"14:00", "X", "s", "c"⟩,
            ⟨"bad", "Z", "s", "c"⟩] := by
  constructor
  · intro measure nowTime nowMs services sourceLabel st
    rw [(apply_services_payload_fields measure nowTime nowMs services
      sourceLabel st).1]
    exact ⟨List.sorted_insertionSort serviceLe services,
      List.perm_insertionSort serviceLe services⟩
  · decide

/-- C2: `fetch_services_payload` consults its sources strictly in preference
order — remote first (attempted only when the connectivity flag is up) when
`prefer_remote` is set and a URL is configured, then the in-memory cache,
then a disk read; otherwise cache, disk, then remote — returning the first
non-empty result labelled remote or local (label `none` and an empty list
when all fail), and its `wifi_drop` is true exactly when a remote attempt was
made and the result's label is not remote.  Proved as a pointwise equality
with the specification-side arbiter `fetch_spec`. -/
theorem C2_source_arbitration :
    ∀ (preferRemote urlConfigured wifiOk : Bool)
      (cache : Option (List Service)) (disk remote : List Service),
      (fetch_services_payload preferRemote urlConfigured wifiOk cache disk
          remote).result.services
        = (fetch_spec preferRemote urlConfigured wifiOk cache disk remote).1
      ∧ (fetch_services_payload preferRemote urlConfigured wifiOk cache disk
          remote).result.source
        = (fetch_spec preferRemote urlConfigured wifiOk cache disk remote).2.1
      ∧ (fetch_services_payload preferRemote urlConfigured wifiOk cache disk
          remote).result.wifiDrop
        = (fetch_spec preferRemote urlConfigured wifiOk cache disk remote).2.2 := by
  intro pr url wifi cache disk remote
  rcases cache with _ | cl
  · cases pr <;> cases url <;> cases wifi <;>
      by_cases hd : disk.isEmpty <;> by_cases hr : remote.isEmpty <;>
      simp_all [fetch_services_payload, fetch_spec, load_remote,
        load_local_from_cache, load_local_from_disk, firstNonEmpty]
  · cases pr <;> cases url <;> cases wifi <;>
      by_cases hcl : cl.isEmpty <;> by_cases hd : disk.isEmpty <;>
      by_cases hr : remote.isEmpty <;>
      simp_all [fetch_services_payload, fetch_spec, load_remote,
        load_local_from_cache, load_local_from_disk, firstNonEmpty]

/-- C9: the in-memory cache is written only by a successful local-disk read —
when the fetch result is labelled remote or the fetch failed (label `none`)
the cache is untouched; when it does change it holds exactly the non-empty
disk read and the result is labelled local; and `apply_services_payload`
leaves the cache alone for every label other than local. -/
theorem C9_cache_write_policy :
    (∀ (preferRemote urlConfigured wifiOk : Bool)
        (cache : Option (List Service)) (disk remote : List Service),
      ((fetch_services_payload preferRemote urlConfigured wifiOk cache disk
            remote).result.source = some Source.remoteSrc
        ∨ (fetch_services_payload preferRemote urlConfigured wifiOk cache disk
            remote).result.source = none) →
        (fetch_services_payload preferRemote urlConfigured wifiOk cache disk
          remote).cacheAfter = cache)
    ∧ (∀ (preferRemote urlConfigured wifiOk : Bool)
        (cache : Option (List Service)) (disk remote : List Service),
        (fetch_services_payload preferRemote urlConfigured wifiOk cache disk
          remote).cacheAfter ≠ cache →
          (fetch_services_payload preferRemote urlConfigured wifiOk cache disk
            remote).cacheAfter = some disk
          ∧ disk ≠ []
          ∧ (fetch_services_payload preferRemote urlConfigured wifiOk cache
              disk remote).result.source = some Source.localSrc)
    ∧ (∀ (measure : String → Nat) (nowTime : Option (Nat × Nat × Nat))
        (nowMs : Int) (services : List Service) (label : Option Source)
        (st : ProgState), label ≠ some Source.localSrc →
        (apply_services_payload measure nowTime nowMs services label
          st).localServicesCached = st.localServicesCached) := by
  refine ⟨?_, ?_, ?_⟩
  · intro pr url wifi cache disk remote h
    rcases cache with _ | cl
    · revert h
      cases pr <;> cases url <;> cases wifi <;>
        by_cases hd : disk.isEmpty <;> by_cases hr : remote.isEmpty <;>
        simp_all [fetch_services_payload, load_remote, load_local_from_cache,
          load_local_from_disk]
    · revert h
      cases pr <;> cases url <;> cases wifi <;>
        by_cases hcl : cl.isEmpty <;> by_cases hd : disk.isEmpty <;>
        by_cases hr : remote.isEmpty <;>
        simp_all [fetch_services_payload, load_remote, load_local_from_cache,
          load_local_from_disk]
  · intro pr url wifi cache disk remote h
    revert h
    rcases cache with _ | cl
    · cases pr <;> cases url <;> cases wifi <;>
        by_cases hd : disk.isEmpty <;> by_cases hr : remote.isEmpty <;>
        simp_all [fetch_services_payload, load_remote, load_local_from_cache,
          load_local_from_disk]
    · cases pr <;> cases url <;> cases wifi <;>
        by_cases hcl : cl.isEmpty <;> by_cases hd : disk.isEmpty <;>
        by_cases hr : remote.isEmpty <;>
        simp_all [fetch_services_payload, load_remote, load_local_from_cache,
          load_local_from_disk]
  · intro measure nowTime nowMs services label st hlabel
    rw [(apply_services_payload_fields measure nowTime nowMs services label
      st).2.2.2.2.1, if_neg hlabel]

/-- C9, witness: a successful remote fetch leaves the cache untouched, a
disk read in local-first mode writes it, and applying a payload labelled
`none` does not write it. -/
theorem C9_cache_write_policy_witness :
    (fetch_services_payload true true true (some [DEFAULT_SERVICE]) []
        [DEFAULT_SERVICE]).cacheAfter = some [DEFAULT_SERVICE]
    ∧ (fetch_services_payload false false false none [DEFAULT_SERVICE]
        []).cacheAfter = some [DEFAULT_SERVICE]
    ∧ (apply_services_payload (fun _ => 8) none 0 [DEFAULT_SERVICE] none
        (init_state (fun _ => 8))).localServicesCached = none := by
  refine ⟨?_, ?_, ?_⟩
  · exact C9_cache_write_policy.1 true true true (some [DEFAULT_SERVICE]) []
      [DEFAULT_SERVICE] (Or.inl (by decide))
  · exact ((C9_cache_write_policy.2.1 false false false none [DEFAULT_SERVICE]
      [] (by decide)).1).trans rfl
  · exact (C9_cache_write_policy.2.2 (fun _ => 8) none 0 [DEFAULT_SERVICE]
      none (init_state (fun _ => 8)) (by decide)).trans (by decide)

/-- C5: single-slot mailbox discipline (threading available).
`start_async_refresh` returns `True` without spawning while a result is
unconsumed or a fetch is in flight, spawns only from an empty idle mailbox
(returning `True`), and `poll_async_refresh` consumes the pending result
exactly once: it returns the pending result, leaves the slot `None`, a second
poll consumes nothing, and polling an empty slot changes nothing. -/
theorem C5_mailbox_discipline :
    ∀ (spawnOk : Bool) (measure : String → Nat)
      (nowTime : Option (Nat × Nat × Nat)) (nowMs : Int)
      (st : ProgState) (r : FetchResult),
    (st.pendingRefreshResult ≠ none ∨ st.refreshThreadRunning = true →
      start_async_refresh true spawnOk st = ⟨true, st, false⟩)
    ∧ ((start_async_refresh true spawnOk st).spawned = true →
        st.pendingRefreshResult = none ∧ st.refreshThreadRunning = false)
    ∧ (st.pendingRefreshResult = none → st.refreshThreadRunning = false →
        spawnOk = true →
        start_async_refresh true spawnOk st
          = ⟨true, { st with refreshThreadRunning := true }, true⟩)
    ∧ (st.pendingRefreshResult = some r →
        (poll_async_refresh measure nowTime nowMs st).1 = some r)
    ∧ (poll_async_refresh measure nowTime nowMs st).2.pendingRefreshResult = none
    ∧ (poll_async_refresh measure nowTime nowMs
        (poll_async_refresh measure nowTime nowMs st).2).1 = none
    ∧ (st.pendingRefreshResult = none →
        poll_async_refresh measure nowTime nowMs st = (none, st)) := by
  intro spawnOk measure nowTime nowMs st r
  refine ⟨?_, ?_, ?_, ?_, ?_, ?_, ?_⟩
  · intro h
    rcases hp : st.pendingRefreshResult with _ | r'
    · have hrun : st.refreshThreadRunning = true := by
        rcases h with h1 | h2
        · exact absurd hp h1
        · exact h2
      simp [start_async_refresh, hp, hrun]
    · simp [start_async_refresh, hp]
  · intro hsp
    rcases hp : st.pendingRefreshResult with _ | r' <;>
      cases hrun : st.refreshThreadRunning <;>
      cases hspawn : spawnOk <;>
      simp_all [start_async_refresh]
  · intro hp hrun hspawn
    simp [start_async_refresh, hp, hrun, hspawn]
  · intro hp
    simp [poll_async_refresh, hp]
  · exact poll_clears_mailbox measure nowTime nowMs st
  · rw [poll_on_empty measure nowTime nowMs
      (poll_clears_mailbox measure nowTime nowMs st)]
  · intro hp
    exact poll_on_empty measure nowTime nowMs hp

/-- C5, witness: with a pending result, starting again returns `True` and
changes nothing; polling consumes that result and leaves the slot empty; from
the idle startup state a start spawns a worker and returns `True`. -/
theorem C5_mailbox_discipline_witness :
    (start_async_refresh true true test_pending_state
      = ⟨true, test_pending_state, false⟩)
    ∧ (poll_async_refresh (fun _ => 8) none 0 test_pending_state).1
      = some test_fetch_result
    ∧ (poll_async_refresh (fun _ => 8) none 0
        test_pending_state).2.pendingRefreshResult = none
    ∧ start_async_refresh true true (init_state (fun _ => 8))
      = ⟨true, { init_state (fun _ => 8) with refreshThreadRunning := true }, true⟩ := by
  refine ⟨?_, ?_, ?_, ?_⟩
  · exact (C5_mailbox_discipline true (fun _ => 8) none 0 test_pending_state
      test_fetch_result).1 (Or.inl (by decide))
  · exact (C5_mailbox_discipline true (fun _ => 8) none 0 test_pending_state
      test_fetch_result).2.2.2.1 rfl
  · exact (C5_mailbox_discipline true (fun _ => 8) none 0 test_pending_state
      test_fetch_result).2.2.2.2.1
  · exact (C5_mailbox_discipline true (fun _ => 8) none 0
      (init_state (fun _ => 8)) test_fetch_result).2.2.1 rfl rfl rfl

/-- C8, counterexample: the claim says the worker clears the in-flight flag
immediately before writing the mailbox, so that whenever the mailbox has just
become non-`None` the flag is already `False`.  In the worker's actual write
order the mailbox write comes first: at the trace point where the result has
just appeared (index 1, mailbox just became non-`None` from index 0), the
in-flight flag is still `True`. -/
theorem C8_claim_counterexample :
    ((worker_shared_trace test_fetch_result)[0]?).map
        MailboxView.pendingRefreshResult = some none
    ∧ ((worker_shared_trace test_fetch_result)[1]?).map
        MailboxView.pendingRefreshResult = some (some test_fetch_result)
    ∧ ((worker_shared_trace test_fetch_result)[1]?).map
        MailboxView.refreshThreadRunning = some true := by
  decide

/-- C8 (amended): the worker writes the mailbox first and clears the
in-flight flag in its immediately following action, so at the point the
result has just become visible the flag is still `True`, and whenever the
flag is observed `False` the result is already in the mailbox (a fresh fetch
started then finds the result visible). -/
theorem C8_worker_order (r : FetchResult) :
    worker_shared_trace r
      = [{ refreshThreadRunning := true, pendingRefreshResult := none },
          { refreshThreadRunning := true, pendingRefreshResult := some r },
          { refreshThreadRunning := false, pendingRefreshResult := some r }]
    ∧ (∀ (i : Nat) (v : MailboxView), (worker_shared_trace r)[i]? = some v →
        v.refreshThreadRunning = false → v.pendingRefreshResult = some r) := by
  refine ⟨rfl, ?_⟩
  intro i v hv hr
  rcases i with _ | _ | _ | i <;> simp_all [worker_shared_trace] <;>
    (try subst hv) <;> simp_all

/-- C8, witness: at the final trace point of a concrete worker run the flag
is clear and the amended theorem yields the visible result. -/
theorem C8_worker_order_witness :
    MailboxView.pendingRefreshResult ⟨false, some test_fetch_result⟩
      = some test_fetch_result :=
  (C8_worker_order test_fetch_result).2 2 ⟨false, some test_fetch_result⟩ rfl rfl

/-- C6: on a falsy result or an empty services list, `apply_fetched_services`
returns `False` and leaves `svc_services`, `svc_schedule_seconds`,
`current_service_idx`, `svc_state`, `last_source` and the local cache
unchanged; the sole permitted state change is clearing the connectivity flag
when the result carries `wifi_drop`.  Consequently the service list is never
empty after the first successful refresh: every application preserves
non-emptiness of `svc_services`. -/
theorem C6_failure_atomicity :
    ∀ (measure : String → Nat) (nowTime : Option (Nat × Nat × Nat))
      (nowMs : Int) (r : FetchResult) (st : ProgState),
    apply_fetched_services measure nowTime nowMs none st = (false, st)
    ∧ (r.services = [] →
        (apply_fetched_services measure nowTime nowMs (some r) st).1 = false
        ∧ (apply_fetched_services measure nowTime nowMs (some r) st).2
            = { st with wifiOk := if r.wifiDrop then false else st.wifiOk })
    ∧ (st.svcServices ≠ [] → ∀ result : Option FetchResult,
        (apply_fetched_services measure nowTime nowMs result st).2.svcServices ≠ []) := by
  intro measure nowTime nowMs r st
  refine ⟨rfl, ?_, ?_⟩
  · intro hsvc
    have he : r.services.isEmpty = true := by
      rw [hsvc]
      rfl
    cases hw : r.wifiDrop <;>
      simp [apply_fetched_services, he, hw]
  · intro hne result
    rcases result with _ | r'
    · exact hne
    · by_cases he : r'.services.isEmpty
      · cases hw : r'.wifiDrop <;>
          simp [apply_fetched_services, he, hw] <;> exact hne
      · have hsvc : r'.services ≠ [] := by
          intro hh
          rw [hh] at he
          exact he rfl
        cases hw : r'.wifiDrop <;>
          simp [apply_fetched_services, he, hw] <;>
          · rw [(apply_services_payload_fields _ _ _ _ _ _).1]
            exact pySorted_ne_nil hsvc

/-- C6, witness: at a concrete wifi-drop failure result on the startup state,
the application reports failure, clears the connectivity flag only, and the
service list stays non-empty. -/
theorem C6_failure_atomicity_witness :
    ((apply_fetched_services (fun _ => 8) none 0
        (some { services := [], source := none, wifiDrop := true, error := none })
        { init_state (fun _ => 8) with wifiOk := true }).1 = false)
    ∧ (apply_fetched_services (fun _ => 8) none 0
        (some { services := [], source := none, wifiDrop := true, error := none })
        { init_state (fun _ => 8) with wifiOk := true }).2.svcServices ≠ [] := by
  constructor
  · exact ((C6_failure_atomicity (fun _ => 8) none 0
      { services := [], source := none, wifiDrop := true, error := none }
      { init_state (fun _ => 8) with wifiOk := true }).2.1 rfl).1
  · exact (C6_failure_atomicity (fun _ => 8) none 0
      { services := [], source := none, wifiDrop := true, error := none }
      { init_state (fun _ => 8) with wifiOk := true }).2.2 (by decide)
      (some { services := [], source := none, wifiDrop := true, error := none })

/-- C7: every operation that changes the service list or the current index
keeps `0 ≤ current_service_idx < len(svc_services)` for non-empty lists:
`apply_services_payload` re-resolves the index via the first-at-or-after-now
rule when the wall clock is available (falling back to 0 otherwise, never
dangling); `advance_service` moves to `(index+1) mod length` only when more
than one service exists and is a no-op otherwise; and `auto_advance_if_due`
(a no-op without wall clock) leaves the index in bounds whenever the
schedule index is no longer than the service list.  The final conjunct
states the re-resolution rule itself: on a refresh with the clock available
the stored index equals the specification-side `targetSpec` (first schedule
at or after now, else first-lowest, else 0) over the freshly sorted list —
not an unconditional reset to 0. -/
theorem C7_index_in_bounds :
    ∀ (measure : String → Nat) (nowTime : Option (Nat × Nat × Nat)) (nowMs : Int)
      (services : List Service) (label : Option Source) (st : ProgState),
    (services ≠ [] →
      (apply_services_payload measure nowTime nowMs services label
          st).currentServiceIdx
        < (apply_services_payload measure nowTime nowMs services label
          st).svcServices.length)
    ∧ ((advance_service measure nowMs st).1.svcServices = st.svcServices)
    ∧ (st.svcServices.length ≤ 1 →
        (advance_service measure nowMs st).1.currentServiceIdx
          = st.currentServiceIdx)
    ∧ (1 < st.svcServices.length →
        (advance_service measure nowMs st).1.currentServiceIdx
          = (st.currentServiceIdx + 1) % st.svcServices.length)
    ∧ (st.currentServiceIdx < st.svcServices.length →
        (advance_service measure nowMs st).1.currentServiceIdx
          < st.svcServices.length)
    ∧ (auto_advance_if_due measure nowMs none st = (st, false))
    ∧ ((auto_advance_if_due measure nowMs nowTime st).1.svcServices
        = st.svcServices)
    ∧ (st.svcServices ≠ [] →
        st.svcScheduleSeconds.length ≤ st.svcServices.length →
        ∀ hh mm ss : Nat,
        (auto_advance_if_due measure nowMs (some (hh, mm, ss))
            st).1.currentServiceIdx
          < st.svcServices.length)
    ∧ (services ≠ [] → ∀ hh mm ss : Nat, nowTime = some (hh, mm, ss) →
        (apply_services_payload measure nowTime nowMs services label
            st).currentServiceIdx
          = targetSpec
              ((pySorted services).map (fun svc => parse_sched_to_seconds svc.sched))
              (hh * 3600 + mm * 60 + ss)) := by
  intro measure nowTime nowMs services label st
  refine ⟨?_, ?_, ?_, ?_, ?_, ?_, ?_, ?_, ?_⟩
  · intro hsvc
    obtain ⟨h1, _, h3, _⟩ :=
      apply_services_payload_fields measure nowTime nowMs services label st
    rw [h1, h3]
    rcases nowTime with _ | ⟨hh, mm, ss⟩
    · simpa using List.length_pos.2 (pySorted_ne_nil hsvc)
    · exact find_service_index_lt _ (pySorted_ne_nil hsvc) (by simp)
  · by_cases hl : st.svcServices.length ≤ 1 <;>
      simp [advance_service, hl, apply_service]
  · intro h
    simp [advance_service, h]
  · intro h
    have hl : ¬(st.svcServices.length ≤ 1) := by omega
    simp [advance_service, hl, apply_service]
  · intro h
    by_cases hl : st.svcServices.length ≤ 1
    · simpa [advance_service, hl] using h
    · simp [advance_service, hl, apply_service]
      exact Nat.mod_lt _ (by omega)
  · exact auto_advance_none_time measure nowMs st
  · exact (auto_advance_shape measure nowMs nowTime st).1
  · intro hne hlen hh mm ss
    have hpos : 0 < st.svcServices.length := List.length_pos.2 hne
    rcases (auto_advance_shape measure nowMs (some (hh, mm, ss)) st).2 with
      ⟨hcase, _⟩ | h | ⟨hh', mm', ss', _, h⟩
    · rcases hcase with hcase | hcase
      · cases hcase
      · exact absurd hcase hne
    · rw [h]
      by_cases hcl : st.svcServices.length ≤ st.currentServiceIdx <;>
        simp [hcl] <;> omega
    · rw [h]
      exact find_service_index_lt _ hne hlen
  · intro hsvc hh mm ss hnt
    obtain ⟨_, _, h3, _⟩ :=
      apply_services_payload_fields measure nowTime nowMs services label st
    subst hnt
    rw [h3]
    exact find_eq_targetSpec _ _ (pySorted_ne_nil hsvc)

/-- C7, witness: on the two-service test state with the clock at 09:01, a
refresh, a manual advance and an auto-advance all leave the index strictly
below the list length, and the refreshed index equals the first-at-or-after-
now target over the sorted list. -/
theorem C7_index_in_bounds_witness :
    ((apply_services_payload (fun _ => 8) (some (9, 1, 0)) 0 test_two_services
        none test_two_state).currentServiceIdx
      < (apply_services_payload (fun _ => 8) (some (9, 1, 0)) 0
          test_two_services none test_two_state).svcServices.length)
    ∧ ((advance_service (fun _ => 8) 0 test_two_state).1.currentServiceIdx
      < test_two_state.svcServices.length)
    ∧ ((auto_advance_if_due (fun _ => 8) 0 (some (9, 1, 0))
        test_two_state).1.currentServiceIdx
      < test_two_state.svcServices.length)
    ∧ ((apply_services_payload (fun _ => 8) (some (9, 1, 0)) 0 test_two_services
        none test_two_state).currentServiceIdx
      = targetSpec
          ((pySorted test_two_services).map
            (fun svc => parse_sched_to_seconds svc.sched))
          (9 * 3600 + 1 * 60 + 0)) := by
  refine ⟨?_, ?_, ?_, ?_⟩
  · exact (C7_index_in_bounds (fun _ => 8) (some (9, 1, 0)) 0 test_two_services
      none test_two_state).1 (by decide)
  · exact (C7_index_in_bounds (fun _ => 8) (some (9, 1, 0)) 0 test_two_services
      none test_two_state).2.2.2.2.1 (by decide)
  · exact (C7_index_in_bounds (fun _ => 8) (some (9, 1, 0)) 0 test_two_services
      none test_two_state).2.2.2.2.2.2.2.1 (by decide) (by decide) 9 1 0
  · exact (C7_index_in_bounds (fun _ => 8) (some (9, 1, 0)) 0 test_two_services
      none test_two_state).2.2.2.2.2.2.2.2 (by decide) 9 1 0 rfl

/-- C10: every successful parse is at most `23*3600 + 59*60 = 86340`, strictly
below the `86400` sentinel that `service_sort_key` assigns to unparseable
schedules; consequently a service with a parseable schedule never sorts after
one with an unparseable schedule (its key is strictly smaller and the reverse
comparison fails). -/
theorem C10_parse_range :
    (∀ (value : String) (n : Nat),
      parse_sched_to_seconds value = some n → n ≤ 86340)
    ∧ (∀ a b : Service, parse_sched_to_seconds a.sched ≠ none →
        parse_sched_to_seconds b.sched = none →
        (service_sort_key a).1 < (service_sort_key b).1
          ∧ keyLe (service_sort_key b) (service_sort_key a) = false) := by
  constructor
  · intro value n h
    exact parse_sched_ub h
  · intro a b ha hb
    rcases hpa : parse_sched_to_seconds a.sched with _ | n
    · exact absurd hpa ha
    · have hn : n ≤ 86340 := parse_sched_ub hpa
      have hka : service_sort_key a = (n, a.destination) := by
        unfold service_sort_key
        rw [hpa]
      have hkb : service_sort_key b = (86400, b.destination) := by
        unfold service_sort_key
        rw [hb]
      rw [hka, hkb]
      constructor
      · omega
      · unfold keyLe
        rw [if_neg (by omega)]
        rw [if_neg (by simp; omega)]

/-- C10, witness: both conjuncts applied at concrete inputs — the parse of
"09:05" is bounded, and a service scheduled "09:00" sorts strictly before one
scheduled "bad". -/
theorem C10_parse_range_witness :
    (32700 ≤ 86340)
    ∧ ((service_sort_key ⟨"09:00", "A", "s", "c"⟩).1
        < (service_sort_key ⟨"bad", "B", "s", "c"⟩).1) := by
  constructor
  · exact C10_parse_range.1 "09:05" 32700 (by decide)
  · exact (C10_parse_range.2 ⟨"09:00", "A", "s", "c"⟩ ⟨"bad", "B", "s", "c"⟩
      (by decide) (by decide)).1

end TrainBoard
